import Mathlib

/-!
Formal model of the PondTV media cataloging and playback-orchestration core,
shallowly embedded from the Python sources (`pondtv/src/database_manager.py`,
`pondtv/src/main.py`, `pondtv/src/media_scanner.py`, `pondtv/playlist_engine.py`,
`pondtv/media_scanner.py`), together with theorems settling the frozen claims
about the specification.
-/

namespace PondTV

/-- Watch status of a catalog entry (the strings `'Unseen'` / `'Seen'` in the
YAML database). -/
inductive Status where
  | unseen
  | seen
deriving DecidableEq, Repr

/-- Movie record of the catalog, as stored in the `movies` list of the YAML
database used by `pondtv/src` (fields `filepath`, `title`, `year`, `status`,
`resume_position`; `resume_position` may be the YAML null = `none`). -/
structure MovieEntry where
  filepath : String
  title : String
  year : Option Int
  status : Status
  resume_position : Option Int
deriving DecidableEq, Repr

/-- Episode record of a series, as stored in one element of a series'
`episodes` list. -/
structure EpisodeEntry where
  filepath : String
  season : Int
  episode : Int
  status : Status
  resume_position : Option Int
deriving DecidableEq, Repr

/-- One element of the `series` list of the database: a series name together
with its episode list. -/
structure SeriesEntry where
  series_name : String
  episodes : List EpisodeEntry
deriving DecidableEq, Repr

/-- Content of the persisted YAML database: the `movies` list and the `series`
list (schema of `pondtv/src/media_scanner.py` / `database_manager.py`). -/
structure DBContent where
  movies : List MovieEntry
  series : List SeriesEntry
deriving DecidableEq, Repr

/-- Empty database structure, the `{}` returned by `DatabaseManager.load` on a
missing or unreadable file. -/
def DBContent.empty : DBContent := { movies := [], series := [] }

/-! ## `DatabaseManager.update_item_status` (src/pondtv/src/database_manager.py)

The Python method locates the first entry whose `filepath` equals the given
path — movies first, then each series' episodes in order — sets its `status`,
sets its `resume_position` only when the `resume_position` argument is not
`None`, and returns whether an entry was found. -/

/-- Mutation applied to a matched movie: `movie['status'] = status;
if resume_position is not None: movie['resume_position'] = resume_position`. -/
def upd_movie (m : MovieEntry) (status : Status) (resume_position : Option Int) : MovieEntry :=
  { m with
    status := status
    resume_position := match resume_position with
      | some r => some r
      | none => m.resume_position }

/-- Mutation applied to a matched episode, identical in shape to `upd_movie`. -/
def upd_episode (e : EpisodeEntry) (status : Status) (resume_position : Option Int) : EpisodeEntry :=
  { e with
    status := status
    resume_position := match resume_position with
      | some r => some r
      | none => e.resume_position }

/-- Scan of the `movies` list: update the first movie whose `filepath` matches
(the Python loop `break`s after the first hit), `none` when no movie matches. -/
def update_in_movies (ms : List MovieEntry) (fp : String) (status : Status)
    (resume_position : Option Int) : Option (List MovieEntry) :=
  match ms with
  | [] => none
  | m :: rest =>
    if m.filepath = fp then
      some (upd_movie m status resume_position :: rest)
    else
      (update_in_movies rest fp status resume_position).map (m :: ·)

/-- Scan of one series' `episodes` list, first match only. -/
def update_in_episodes (es : List EpisodeEntry) (fp : String) (status : Status)
    (resume_position : Option Int) : Option (List EpisodeEntry) :=
  match es with
  | [] => none
  | e :: rest =>
    if e.filepath = fp then
      some (upd_episode e status resume_position :: rest)
    else
      (update_in_episodes rest fp status resume_position).map (e :: ·)

/-- Scan of the `series` list: the Python outer loop over series with the inner
loop over episodes, both `break`ing at the first hit. -/
def update_in_series (ss : List SeriesEntry) (fp : String) (status : Status)
    (resume_position : Option Int) : Option (List SeriesEntry) :=
  match ss with
  | [] => none
  | s :: rest =>
    match update_in_episodes s.episodes fp status resume_position with
    | some es => some ({ s with episodes := es } :: rest)
    | none => (update_in_series rest fp status resume_position).map (s :: ·)

/-- Pure content of `DatabaseManager.update_item_status`: check movies, then
series episodes; `some` of the updated database when the item was found
(the Python method then persists it via `save` and returns `True`), `none`
when no entry matches (the method returns `False`). -/
def update_item_status (db : DBContent) (fp : String) (status : Status)
    (resume_position : Option Int) : Option DBContent :=
  match update_in_movies db.movies fp status resume_position with
  | some ms => some { db with movies := ms }
  | none =>
    match update_in_series db.series fp status resume_position with
    | some ss => some { db with series := ss }
    | none => none

/-! ## Flattened view of the catalog entries, in the search order of
`update_item_status` (movies first, then each series' episodes). -/

/-- Catalog entry, movie or episode. -/
inductive Entry where
  | movie (m : MovieEntry)
  | episode (e : EpisodeEntry)
deriving DecidableEq, Repr

/-- File path of an entry. -/
def Entry.filepath : Entry → String
  | .movie m => m.filepath
  | .episode e => e.filepath

/-- Copy of an entry with only the `status` field replaced; every other field
(`filepath`, `title`, `year`, `season`, `episode`, `resume_position`) is kept. -/
def Entry.withStatus : Entry → Status → Entry
  | .movie m, st => .movie { m with status := st }
  | .episode e, st => .episode { e with status := st }

/-- Episode entries of a series list, flattened in order. -/
def seriesEntries : List SeriesEntry → List Entry
  | [] => []
  | s :: rest => s.episodes.map Entry.episode ++ seriesEntries rest

/-- Entries of the whole catalog in the search order of `update_item_status`. -/
def entries (db : DBContent) : List Entry :=
  db.movies.map Entry.movie ++ seriesEntries db.series

theorem seriesEntries_append (a b : List SeriesEntry) :
    seriesEntries (a ++ b) = seriesEntries a ++ seriesEntries b := by
  induction a with
  | nil => simp [seriesEntries]
  | cons s rest ih => simp [seriesEntries, ih]

/-! ### Decomposition lemmas for the search -/

theorem update_in_movies_some {ms : List MovieEntry} {fp : String} {st : Status}
    {rp : Option Int} {ms' : List MovieEntry}
    (h : update_in_movies ms fp st rp = some ms') :
    ∃ pre m post, ms = pre ++ m :: post ∧ m.filepath = fp ∧
      (∀ x ∈ pre, x.filepath ≠ fp) ∧ ms' = pre ++ upd_movie m st rp :: post := by
  induction ms generalizing ms' with
  | nil => simp [update_in_movies] at h
  | cons m rest ih =>
    by_cases hm : m.filepath = fp
    · simp [update_in_movies, hm] at h
      exact ⟨[], m, rest, by simp, hm, by simp, h.symm⟩
    · simp [update_in_movies, hm] at h
      obtain ⟨rest', hrest, hms'⟩ := h
      obtain ⟨pre, mm, post, h1, h2, h3, h4⟩ := ih hrest
      exact ⟨m :: pre, mm, post, by simp [h1], h2, by
        intro x hx
        rcases List.mem_cons.mp hx with hx | hx
        · exact hx ▸ hm
        · exact h3 x hx, by simp [← hms', h4]⟩

theorem update_in_movies_none {ms : List MovieEntry} {fp : String} {st : Status}
    {rp : Option Int} (h : update_in_movies ms fp st rp = none) :
    ∀ m ∈ ms, m.filepath ≠ fp := by
  induction ms with
  | nil => simp
  | cons m rest ih =>
    by_cases hm : m.filepath = fp
    · simp [update_in_movies, hm] at h
    · simp [update_in_movies, hm] at h
      intro x hx
      rcases List.mem_cons.mp hx with hx | hx
      · exact hx ▸ hm
      · exact ih h x hx

theorem update_in_episodes_some {es : List EpisodeEntry} {fp : String} {st : Status}
    {rp : Option Int} {es' : List EpisodeEntry}
    (h : update_in_episodes es fp st rp = some es') :
    ∃ pre e post, es = pre ++ e :: post ∧ e.filepath = fp ∧
      (∀ x ∈ pre, x.filepath ≠ fp) ∧ es' = pre ++ upd_episode e st rp :: post := by
  induction es generalizing es' with
  | nil => simp [update_in_episodes] at h
  | cons e rest ih =>
    by_cases he : e.filepath = fp
    · simp [update_in_episodes, he] at h
      exact ⟨[], e, rest, by simp, he, by simp, h.symm⟩
    · simp [update_in_episodes, he] at h
      obtain ⟨rest', hrest, hes'⟩ := h
      obtain ⟨pre, ee, post, h1, h2, h3, h4⟩ := ih hrest
      exact ⟨e :: pre, ee, post, by simp [h1], h2, by
        intro x hx
        rcases List.mem_cons.mp hx with hx | hx
        · exact hx ▸ he
        · exact h3 x hx, by simp [← hes', h4]⟩

theorem update_in_episodes_none {es : List EpisodeEntry} {fp : String} {st : Status}
    {rp : Option Int} (h : update_in_episodes es fp st rp = none) :
    ∀ e ∈ es, e.filepath ≠ fp := by
  induction es with
  | nil => simp
  | cons e rest ih =>
    by_cases he : e.filepath = fp
    · simp [update_in_episodes, he] at h
    · simp [update_in_episodes, he] at h
      intro x hx
      rcases List.mem_cons.mp hx with hx | hx
      · exact hx ▸ he
      · exact ih h x hx

theorem update_in_series_some {ss : List SeriesEntry} {fp : String} {st : Status}
    {rp : Option Int} {ss' : List SeriesEntry}
    (h : update_in_series ss fp st rp = some ss') :
    ∃ preS s postS es', ss = preS ++ s :: postS ∧
      (∀ s' ∈ preS, ∀ e ∈ s'.episodes, e.filepath ≠ fp) ∧
      update_in_episodes s.episodes fp st rp = some es' ∧
      ss' = preS ++ { s with episodes := es' } :: postS := by
  induction ss generalizing ss' with
  | nil => simp [update_in_series] at h
  | cons s rest ih =>
    cases hes : update_in_episodes s.episodes fp st rp with
    | some es =>
      simp [update_in_series, hes] at h
      exact ⟨[], s, rest, es, by simp, by simp, hes, by simp [← h]⟩
    | none =>
      simp [update_in_series, hes] at h
      obtain ⟨rest', hrest, hss'⟩ := h
      obtain ⟨preS, sm, postS, es', h1, h2, h3, h4⟩ := ih hrest
      refine ⟨s :: preS, sm, postS, es', by simp [h1], ?_, h3, by simp [← hss', h4]⟩
      intro s' hs'
      rcases List.mem_cons.mp hs' with hs' | hs'
      · exact hs' ▸ update_in_episodes_none hes
      · exact h2 s' hs'

theorem update_in_series_names {ss : List SeriesEntry} {fp : String} {st : Status}
    {rp : Option Int} {ss' : List SeriesEntry}
    (h : update_in_series ss fp st rp = some ss') :
    ss'.map (·.series_name) = ss.map (·.series_name) := by
  obtain ⟨preS, s, postS, es', h1, _, _, h4⟩ := update_in_series_some h
  simp [h1, h4]

theorem mem_seriesEntries {x : Entry} {ss : List SeriesEntry} :
    x ∈ seriesEntries ss ↔ ∃ s ∈ ss, ∃ e ∈ s.episodes, x = Entry.episode e := by
  induction ss with
  | nil => simp [seriesEntries]
  | cons s rest ih =>
    simp only [seriesEntries, List.mem_append, List.mem_map, ih, List.mem_cons]
    constructor
    · rintro (⟨e, he, hx⟩ | ⟨s', hs', e, he, hx⟩)
      · exact ⟨s, Or.inl rfl, e, he, hx.symm⟩
      · exact ⟨s', Or.inr hs', e, he, hx⟩
    · rintro ⟨s', hs' | hs', e, he, hx⟩
      · exact Or.inl ⟨e, hs' ▸ he, hx.symm⟩
      · exact Or.inr ⟨s', hs', e, he, hx⟩

/-- C10: calling `update_item_status` with the resume position omitted (`None`)
replaces exactly the first entry whose `filepath` matches — movies are searched
before series episodes — with a copy of that entry in which only the `status`
field differs; its `resume_position` and every other entry of the catalog are
unchanged, and so are the movie count and the series names. In particular a
`Seen` update without an explicit resume position does not clear a previously
persisted resume value. -/
theorem update_item_status_only_status (db : DBContent) (fp : String) (st : Status)
    (db' : DBContent) (h : update_item_status db fp st none = some db') :
    db'.movies.length = db.movies.length ∧
    db'.series.map (·.series_name) = db.series.map (·.series_name) ∧
    ∃ pre e post,
      entries db = pre ++ e :: post ∧
      e.filepath = fp ∧
      (∀ x ∈ pre, x.filepath ≠ fp) ∧
      entries db' = pre ++ e.withStatus st :: post := by
  unfold update_item_status at h
  cases hmv : update_in_movies db.movies fp st none with
  | some ms =>
    rw [hmv] at h
    obtain ⟨pre, m, post, h1, h2, h3, h4⟩ := update_in_movies_some hmv
    obtain rfl : { db with movies := ms } = db' := by simpa using h
    refine ⟨by simp [h1, h4], by simp, pre.map Entry.movie, Entry.movie m,
      post.map Entry.movie ++ seriesEntries db.series, ?_, h2, ?_, ?_⟩
    · simp [entries, h1]
    · intro x hx
      obtain ⟨m', hm', rfl⟩ := List.mem_map.mp hx
      exact h3 m' hm'
    · have : Entry.movie (upd_movie m st none) = (Entry.movie m).withStatus st := rfl
      simp [entries, h4, this]
  | none =>
    rw [hmv] at h
    cases hsr : update_in_series db.series fp st none with
    | some ss =>
      rw [hsr] at h
      obtain ⟨preS, s, postS, es', h1, h2, h3, h4⟩ := update_in_series_some hsr
      obtain ⟨preE, e, postE, g1, g2, g3, g4⟩ := update_in_episodes_some h3
      obtain rfl : { db with series := ss } = db' := by simpa using h
      have hmnone := update_in_movies_none hmv
      refine ⟨by simp, update_in_series_names hsr, ?_⟩
      refine ⟨db.movies.map Entry.movie ++ (seriesEntries preS ++ preE.map Entry.episode),
        Entry.episode e, postE.map Entry.episode ++ seriesEntries postS, ?_, g2, ?_, ?_⟩
      · simp [entries, h1, seriesEntries_append, seriesEntries, g1]
      · intro x hx
        rcases List.mem_append.mp hx with hx | hx
        · obtain ⟨m', hm', rfl⟩ := List.mem_map.mp hx
          exact hmnone m' hm'
        · rcases List.mem_append.mp hx with hx | hx
          · obtain ⟨s', hs', e', he', rfl⟩ := mem_seriesEntries.mp hx
            exact h2 s' hs' e' he'
          · obtain ⟨e', he', rfl⟩ := List.mem_map.mp hx
            exact g3 e' he'
      · have : Entry.episode (upd_episode e st none) = (Entry.episode e).withStatus st := rfl
        simp [entries, h4, seriesEntries_append, seriesEntries, g4, this]
    | none => rw [hsr] at h; exact absurd h (by simp)

/-- Movie used in the C10 witness catalog. -/
def c10movie : MovieEntry :=
  ⟨"Movies/a.mkv", "A", some 1999, .unseen, some 3⟩

/-- First episode of the C10 witness series, interrupted at 7 seconds. -/
def c10ep1 : EpisodeEntry :=
  ⟨"TV_Shows/S/s1/e1.mkv", 1, 1, .unseen, some 7⟩

/-- Second episode of the C10 witness series. -/
def c10ep2 : EpisodeEntry :=
  ⟨"TV_Shows/S/s1/e2.mkv", 1, 2, .unseen, none⟩

/-- Concrete catalog used to witness C10: one movie and one two-episode series,
with persisted resume positions. -/
def c10db : DBContent :=
  ⟨[c10movie], [⟨"S", [c10ep1, c10ep2]⟩]⟩

/-- Result of marking the first episode of `c10db` as `Seen` with resume
position omitted: only that episode's `status` changes; its resume value 7
survives. -/
def c10db' : DBContent :=
  ⟨[c10movie], [⟨"S", [⟨"TV_Shows/S/s1/e1.mkv", 1, 1, .seen, some 7⟩, c10ep2]⟩]⟩

/-- Witness for C10 at the concrete catalog `c10db`. -/
theorem update_item_status_only_status_witness :
    c10db'.movies.length = c10db.movies.length ∧
    c10db'.series.map (·.series_name) = c10db.series.map (·.series_name) ∧
    ∃ pre e post,
      entries c10db = pre ++ e :: post ∧
      e.filepath = "TV_Shows/S/s1/e1.mkv" ∧
      (∀ x ∈ pre, x.filepath ≠ "TV_Shows/S/s1/e1.mkv") ∧
      entries c10db' = pre ++ e.withStatus .seen :: post :=
  update_item_status_only_status c10db "TV_Shows/S/s1/e1.mkv" .seen c10db' (by
    simp [c10db, c10db', c10movie, c10ep1, c10ep2, update_item_status,
      update_in_movies, update_in_series, update_in_episodes, upd_episode])

/-! ## `PondTVApp.update_media_status` (src/pondtv/src/main.py)

On leaving an item the orchestrator computes the new status and resume
position from the playback state and persists them through
`DatabaseManager.update_item_status`:

```
new_status = media_item.get('status', 'Unseen')
new_resume_pos = None
is_finished = (duration > 0 and position / duration >= 0.95)
if force_seen or is_finished:
    new_status = 'Seen'
    new_resume_pos = None  # Clear resume position when marking as seen
elif interrupted and position > 0:
    new_resume_pos = int(position)
success = self.db_manager.update_item_status(filepath, new_status, new_resume_pos)
```
-/

/-- Completion test of the orchestrator: `duration > 0 and position / duration >= 0.95`. -/
def is_finished (position duration : ℚ) : Bool :=
  decide (0 < duration) && decide ((95 : ℚ) / 100 ≤ position / duration)

/-- Pure content of `PondTVApp.update_media_status`: compute the new status and
resume position and apply `update_item_status`; `none` models the `False`
return of the failed lookup. -/
def update_media_status (db : DBContent) (fp : String) (item_status : Status)
    (interrupted : Bool) (force_seen : Bool) (position duration : ℚ) : Option DBContent :=
  let new_status := if force_seen || is_finished position duration then Status.seen else item_status
  let new_resume_pos : Option Int :=
    if force_seen || is_finished position duration then none
    else if interrupted && decide (0 < position) then some ⌊position⌋ else none
  update_item_status db fp new_status new_resume_pos

/-- Concrete catalog exhibiting the C2 bug: a movie previously interrupted at
42 seconds. -/
def c2db : DBContent :=
  ⟨[⟨"Movies/m.mkv", "M", none, .unseen, some 42⟩], []⟩

/-- C2 fails on the code: playing `Movies/m.mkv` of `c2db` to 96% completion
marks it `Seen`, but because the orchestrator passes `None` as the resume
position and `update_item_status` skips the field on `None`, the persisted
entry keeps its stale resume position 42 — the persisted catalog has a `Seen`
entry whose resume position is 42, not 0, contradicting the invariant
`status Seen implies resume position 0`. -/
theorem update_media_status_seen_keeps_stale_resume :
    update_media_status c2db "Movies/m.mkv" .unseen false false 96 100 =
      some ⟨[⟨"Movies/m.mkv", "M", none, .seen, some 42⟩], []⟩ ∧
    (some (42 : Int) ≠ some (0 : Int)) := by
  constructor
  · have hfin : is_finished 96 100 = true := by
      simp only [is_finished, Bool.and_eq_true, decide_eq_true_eq]
      norm_num
    simp [update_media_status, hfin, c2db, update_item_status,
      update_in_movies, update_in_series, upd_movie]
  · simp

/-! ## `DatabaseManager.save` (src/pondtv/src/database_manager.py)

The save writes the serialized data to `db_path + '.tmp'`, then
`os.rename`s the temp over the canonical path and returns `True`; any
exception is caught, the temp file is removed when it exists (best-effort),
and `False` is returned. The file system is modelled by the states of the
canonical and temp paths; failures are injected at the two operations that
can raise: the serialize-and-write of the temp file and the rename. -/

/-- State of one file path of the store. -/
inductive FileState where
  | absent
  | corrupt (blob : String)
  | content (data : DBContent)
deriving DecidableEq, Repr

/-- States of the canonical database path and its sibling `.tmp` path. -/
structure StoreFS where
  canonical : FileState
  temp : FileState
deriving DecidableEq, Repr

/-- Point at which an injected failure raises inside `save`: while writing the
temp file (possibly leaving a partial temp behind, which the handler removes),
or at the rename. -/
inductive SaveFailure where
  | writeFails
  | renameFails
deriving DecidableEq, Repr

/-- Model of `DatabaseManager.save`: returns the new file-system state and the
boolean result. On the success path the temp file holds the full serialized
content and the rename atomically replaces the canonical file; on either
failure the exception handler removes the temp file and returns `False`,
leaving the canonical path untouched. -/
def save (fs : StoreFS) (data : DBContent) (fail : Option SaveFailure) : StoreFS × Bool :=
  match fail with
  | some .writeFails => ({ fs with temp := .absent }, false)
  | some .renameFails => ({ fs with temp := .absent }, false)
  | none => ({ canonical := .content data, temp := .absent }, true)

/-- C1: for every catalog value, store state and failure injection, `save`
returns `True` exactly when no failure occurred, in which case the canonical
path holds the full serialized catalog and the temp path is gone; on any
failure it returns `False`, the temp file is removed, and the canonical
catalog file is exactly as it was before the call — the store is never left
in a partially-written state. -/
theorem save_atomic (fs : StoreFS) (data : DBContent) (fail : Option SaveFailure) :
    ((save fs data fail).2 = true →
      (save fs data fail).1.canonical = .content data ∧
      (save fs data fail).1.temp = .absent) ∧
    ((save fs data fail).2 = false →
      (save fs data fail).1.canonical = fs.canonical ∧
      (save fs data fail).1.temp = .absent) ∧
    ((save fs data fail).2 = false ↔ fail ≠ none) := by
  rcases fail with _ | f
  · simp [save]
  · cases f <;> simp [save]

/-- Witness for C1: a failed rename over a populated store reports `False` and
leaves the canonical file holding the old catalog, temp removed. -/
theorem save_atomic_witness :
    (save ⟨.content c2db, .absent⟩ c10db (some .renameFails)).1.canonical = .content c2db ∧
    (save ⟨.content c2db, .absent⟩ c10db (some .renameFails)).1.temp = .absent :=
  (save_atomic ⟨.content c2db, .absent⟩ c10db (some .renameFails)).2.1 (by rfl)

/-! ## `DatabaseManager.load` and `load_and_validate`

`load` (identical in src/pondtv/database_manager.py and
src/pondtv/src/database_manager.py) wraps the read and parse in
`try/except`: a missing file, an unreadable file, or a parse error each
return `{}`, and an empty parse (`safe_load` returning `None`) is mapped to
`{}` as well — `load` itself never raises.

`load_and_validate` (src/pondtv/database_manager.py) then checks falsiness
and `_is_valid`, rebuilding the database with a `MediaScanner` run when the
data is empty or fails validation. `_is_valid` iterates
`data.get('tv_shows', {}).items()` and `data.get('movies', {}).items()`
without a type check on those two values, so a parsed root mapping whose
`tv_shows` (or `movies`) value is not a mapping raises `AttributeError`
out of `load_and_validate`. Parsed YAML documents are modelled by a small
value type. -/

/-- Parsed YAML value. -/
inductive Yaml where
  | null
  | bool (b : Bool)
  | int (n : Int)
  | str (s : String)
  | list (xs : List Yaml)
  | dict (kvs : List (String × Yaml))

/-- Key membership of a Python dict (`'k' in data`). -/
def hasKey (kvs : List (String × Yaml)) (k : String) : Bool :=
  kvs.any (fun kv => kv.1 == k)

/-- Lookup with default (`data.get(k, d)`). -/
def getD (kvs : List (String × Yaml)) (k : String) (d : Yaml) : Yaml :=
  match kvs.find? (fun kv => kv.1 == k) with
  | some kv => kv.2
  | none => d

/-- Python `.items()` on a value: succeeds only on a dict; on anything else it
raises `AttributeError`. -/
def itemsOf : Yaml → Except String (List (String × Yaml))
  | .dict kvs => .ok kvs
  | _ => .error "AttributeError"

/-- Python falsiness of a YAML value (`not data`). -/
def falsy : Yaml → Bool
  | .null => true
  | .bool b => !b
  | .int n => n == 0
  | .str s => s.isEmpty
  | .list xs => xs.isEmpty
  | .dict kvs => kvs.isEmpty

/-- Per-series check of `_is_valid`: the series value must be a dict holding a
`seasons` key. -/
def seriesOk : Yaml → Bool
  | .dict kvs => hasKey kvs "seasons"
  | _ => false

/-- Per-movie check of `_is_valid`: the movie value must be a dict holding a
`filepath` key. -/
def movieOk : Yaml → Bool
  | .dict kvs => hasKey kvs "filepath"
  | _ => false

/-- Model of `DatabaseManager._is_valid` (src/pondtv/database_manager.py):
root must be a dict with `movies` and `tv_shows` keys, every series value a
dict with `seasons`, every movie value a dict with `filepath`. The two
`.items()` calls can raise, in source order. -/
def is_valid (data : Yaml) : Except String Bool :=
  match data with
  | .dict kvs =>
    if hasKey kvs "movies" && hasKey kvs "tv_shows" then do
      let tv ← itemsOf (getD kvs "tv_shows" (.dict []))
      if tv.all (fun kv => seriesOk kv.2) then do
        let mv ← itemsOf (getD kvs "movies" (.dict []))
        pure (mv.all (fun kv => movieOk kv.2))
      else
        pure false
    else
      pure false
  | _ => pure false

/-- Outcome of the read-and-parse step inside `load`. -/
inductive ReadOutcome where
  | missingFile
  | ioError
  | parseError
  | parsed (doc : Option Yaml)

/-- Model of `DatabaseManager.load`: every failure is handled inside the
method (the `Except` layer records whether an exception escapes to the
caller — it never does), a missing/unreadable/unparsable or empty file
yields `{}`. -/
def load : ReadOutcome → Except String Yaml
  | .missingFile => .ok (.dict [])
  | .ioError => .ok (.dict [])
  | .parseError => .ok (.dict [])
  | .parsed none => .ok (.dict [])
  | .parsed (some d) => .ok d

/-- Model of `DatabaseManager.load_and_validate`: load, then rebuild through
the scanner when the data is falsy or fails validation; `scanResult` stands
for the catalog produced by the `MediaScanner` run (external disk state).
Exceptions of `_is_valid` propagate. -/
def load_and_validate (r : ReadOutcome) (scanResult : Yaml) : Except String Yaml := do
  let data ← load r
  if falsy data then
    pure scanResult
  else do
    let v ← is_valid data
    if v then pure data else pure scanResult

/-- Counterexample to C5 as stated: a catalog file parsing to
`{movies: [], tv_shows: []}` (both values lists, as the sibling
implementation in src/pondtv/src writes them) passes the key checks, and
`_is_valid` then raises `AttributeError` from `.items()`, which
`load_and_validate` propagates to the caller instead of rebuilding. -/
theorem load_and_validate_raises :
    load_and_validate
      (.parsed (some (.dict [("movies", .list []), ("tv_shows", .list [])])))
      (.dict []) = .error "AttributeError" := by
  rfl

/-- C5 (amended): `load` itself never raises and returns the empty structure
`{}` on a missing, unreadable, unparsable or empty file; `load_and_validate`
returns the scanner's rebuild when the loaded data is falsy or when
validation completes and rejects it, and returns the loaded data when
validation accepts — but a validator exception (possible when the root dict
has a non-dict `movies`/`tv_shows` value) propagates. -/
theorem load_never_raises (r : ReadOutcome) (scanResult : Yaml) :
    (∃ d, load r = .ok d) ∧
    ((r = .missingFile ∨ r = .ioError ∨ r = .parseError ∨ r = .parsed none) →
      load r = .ok (.dict [])) ∧
    (∀ d, load r = .ok d → falsy d = true →
      load_and_validate r scanResult = .ok scanResult) ∧
    (∀ d, load r = .ok d → falsy d = false → is_valid d = .ok false →
      load_and_validate r scanResult = .ok scanResult) ∧
    (∀ d, load r = .ok d → falsy d = false → is_valid d = .ok true →
      load_and_validate r scanResult = .ok d) := by
  refine ⟨?_, ?_, ?_, ?_, ?_⟩
  · cases r with
    | parsed doc => cases doc <;> exact ⟨_, rfl⟩
    | _ => exact ⟨_, rfl⟩
  · rintro (rfl | rfl | rfl | rfl) <;> rfl
  · intro d hd hf
    simp [load_and_validate, hd, hf, Except.instMonad, Except.bind, Except.pure]
  · intro d hd hf hv
    simp [load_and_validate, hd, hf, hv, Except.instMonad, Except.bind, Except.pure]
  · intro d hd hf hv
    simp [load_and_validate, hd, hf, hv, Except.instMonad, Except.bind, Except.pure]

/-- Witness for C5 (amended) at a concrete store: a missing file loads as `{}`
and the load-and-validate path returns the scanner's rebuild. -/
theorem load_never_raises_witness :
    load .missingFile = .ok (.dict []) ∧
    load_and_validate .missingFile (.dict [("movies", .dict [])]) =
      .ok (.dict [("movies", .dict [])]) := by
  refine ⟨(load_never_raises .missingFile (.dict [("movies", .dict [])])).2.1
    (Or.inl rfl), ?_⟩
  exact (load_never_raises .missingFile (.dict [("movies", .dict [])])).2.2.1
    (.dict []) rfl (by rfl)

/-! ## `PlaylistEngine.create_playlist` (src/pondtv/playlist_engine.py)

The pre-shuffle eligible content is: every movie whose status is `'Unseen'`,
followed by, for each series in order, the first `'Unseen'` episode of the
series' episode list sorted by `(season, episode)` (Python `sorted` — a
stable merge sort on that key); the selected episode is tagged with the
series name before being appended. -/

/-- Playlist item: an unseen movie, or the next unseen episode of a series
tagged with the series name (`next_unseen_episode['series_name'] = ...`). -/
inductive PlaylistItem where
  | movie (m : MovieEntry)
  | episode (series_name : String) (e : EpisodeEntry)
deriving DecidableEq, Repr

/-- Sort key comparison of the Python `sorted(..., key=lambda e: (e['season'],
e['episode']))`: lexicographic on `(season, episode)`. -/
def episodeLE (a b : EpisodeEntry) : Bool :=
  decide (a.season < b.season) ||
    (decide (a.season = b.season) && decide (a.episode ≤ b.episode))

/-- Stable sort of a series' episodes by `(season, episode)`. -/
def sortedEpisodes (es : List EpisodeEntry) : List EpisodeEntry :=
  es.mergeSort episodeLE

/-- First `'Unseen'` episode of the sorted episode list (the Python loop with
`break`), `none` when every episode is seen. -/
def next_unseen_episode (es : List EpisodeEntry) : Option EpisodeEntry :=
  (sortedEpisodes es).find? (fun e => e.status == Status.unseen)

/-- Pre-shuffle eligible content of `create_playlist`: unseen movies, then the
next unseen episode of each series. `random.shuffle` permutes this list in
place afterwards. -/
def create_playlist_eligible (db : DBContent) : List PlaylistItem :=
  (db.movies.filter (fun m => m.status == Status.unseen)).map PlaylistItem.movie ++
    db.series.filterMap
      (fun s => (next_unseen_episode s.episodes).map (PlaylistItem.episode s.series_name))

/-- Strict lexicographic order on the `(season, episode)` key. -/
def epKeyLT (a b : EpisodeEntry) : Prop :=
  a.season < b.season ∨ (a.season = b.season ∧ a.episode < b.episode)

/-- Weak lexicographic order on the `(season, episode)` key. -/
def epKeyLE (a b : EpisodeEntry) : Prop :=
  a.season < b.season ∨ (a.season = b.season ∧ a.episode ≤ b.episode)

theorem episodeLE_iff (a b : EpisodeEntry) : episodeLE a b = true ↔ epKeyLE a b := by
  simp only [episodeLE, epKeyLE, Bool.or_eq_true, Bool.and_eq_true, decide_eq_true_eq]

theorem episodeLE_trans (a b c : EpisodeEntry) (hab : episodeLE a b = true)
    (hbc : episodeLE b c = true) : episodeLE a c = true := by
  rw [episodeLE_iff] at *
  rcases hab with h | ⟨h1, h2⟩ <;> rcases hbc with g | ⟨g1, g2⟩ <;>
    first
      | exact Or.inl (by omega)
      | exact Or.inr (by omega)

theorem episodeLE_total (a b : EpisodeEntry) : (episodeLE a b || episodeLE b a) = true := by
  simp only [Bool.or_eq_true, episodeLE_iff, epKeyLE]
  omega

theorem find?_decomp {α : Type} {p : α → Bool} {l : List α} {a : α}
    (h : l.find? p = some a) :
    ∃ pre post, l = pre ++ a :: post ∧ ∀ x ∈ pre, p x = false := by
  induction l with
  | nil => simp at h
  | cons x xs ih =>
    by_cases hx : p x
    · rw [List.find?_cons_of_pos xs hx] at h
      obtain rfl : x = a := by injection h
      exact ⟨[], xs, rfl, by simp⟩
    · rw [List.find?_cons_of_neg xs (by simpa using hx)] at h
      obtain ⟨pre, post, rfl, hpre⟩ := ih h
      refine ⟨x :: pre, post, rfl, ?_⟩
      intro y hy
      rcases List.mem_cons.mp hy with rfl | hy
      · simpa using hx
      · exact hpre y hy

/-- Minimality of the episode picked by `next_unseen_episode`: it is an unseen
member of the list whose `(season, episode)` key is minimal among the unseen
episodes. -/
theorem next_unseen_episode_min {es : List EpisodeEntry} {e : EpisodeEntry}
    (h : next_unseen_episode es = some e) :
    e ∈ es ∧ e.status = .unseen ∧
      ∀ e' ∈ es, e'.status = .unseen → epKeyLE e e' := by
  have hperm := List.mergeSort_perm es episodeLE
  have hmem : e ∈ sortedEpisodes es :=
    List.mem_of_find?_eq_some h
  have hsorted : (sortedEpisodes es).Pairwise (fun a b => episodeLE a b = true) :=
    List.sorted_mergeSort episodeLE_trans episodeLE_total es
  refine ⟨hperm.mem_iff.mp hmem, by simpa using List.find?_some h, ?_⟩
  intro e' he' hu'
  obtain ⟨pre, post, hdec, hpre⟩ := find?_decomp h
  have he'sorted : e' ∈ sortedEpisodes es := hperm.mem_iff.mpr he'
  rw [hdec] at he'sorted hsorted
  rcases List.mem_append.mp he'sorted with hx | hx
  · exact absurd (by simpa using hpre e' hx) (by simp [hu'])
  · rcases List.mem_cons.mp hx with rfl | hx
    · right; omega
    · have := (List.pairwise_append.mp hsorted).2.1
      rw [List.pairwise_cons] at this
      exact (episodeLE_iff e e').mp (this.1 e' hx)

/-- C3: the pre-shuffle eligible set of the playlist selector is exactly the
unseen movies plus, per series, the single first unseen episode in
`(season, episode)` ascending order; a later unseen episode of a series is
never selected while an earlier unseen episode of that series exists. -/
theorem create_playlist_eligible_spec (db : DBContent) :
    (∀ it : PlaylistItem, it ∈ create_playlist_eligible db ↔
      ((∃ m ∈ db.movies, m.status = .unseen ∧ it = .movie m) ∨
       (∃ s ∈ db.series, ∃ e, next_unseen_episode s.episodes = some e ∧
         it = .episode s.series_name e))) ∧
    (∀ s ∈ db.series, ∀ e, next_unseen_episode s.episodes = some e →
      e ∈ s.episodes ∧ e.status = .unseen ∧
        ∀ e' ∈ s.episodes, e'.status = .unseen → epKeyLE e e') ∧
    (∀ s ∈ db.series, ∀ e₁ ∈ s.episodes, ∀ e₂, e₁.status = .unseen →
      epKeyLT e₁ e₂ → next_unseen_episode s.episodes ≠ some e₂) := by
  refine ⟨?_, ?_, ?_⟩
  · intro it
    simp only [create_playlist_eligible, List.mem_append, List.mem_map,
      List.mem_filter, List.mem_filterMap, Option.map_eq_some', beq_iff_eq]
    constructor
    · rintro (⟨m, ⟨hm, hst⟩, rfl⟩ | ⟨s, hs, e, he, rfl⟩)
      · exact Or.inl ⟨m, hm, hst, rfl⟩
      · exact Or.inr ⟨s, hs, e, he, rfl⟩
    · rintro (⟨m, hm, hst, rfl⟩ | ⟨s, hs, e, he, rfl⟩)
      · exact Or.inl ⟨m, ⟨hm, hst⟩, rfl⟩
      · exact Or.inr ⟨s, hs, e, he, rfl⟩
  · intro s _ e he
    exact next_unseen_episode_min he
  · intro s _ e₁ he₁ e₂ hu₁ hlt hnext
    have := (next_unseen_episode_min hnext).2.2 e₁ he₁ hu₁
    rcases this with h | ⟨h1, h2⟩ <;> rcases hlt with g | ⟨g1, g2⟩ <;> omega

/-- Episodes of the spec's three-episode example series: S01E01 seen,
S01E02 unseen, S01E03 unseen. -/
def exEp (n : Int) (st : Status) : EpisodeEntry :=
  ⟨s!"TV_Shows/X/s1/e{n}.mkv", 1, n, st, none⟩

/-- Example series of the spec: only S01E02 is eligible. -/
def exSeries : SeriesEntry :=
  ⟨"X", [exEp 1 .seen, exEp 2 .unseen, exEp 3 .unseen]⟩

/-- Witness for C3: in the example series, S01E03 is never selected while the
unseen S01E02 precedes it. -/
theorem create_playlist_eligible_spec_witness :
    next_unseen_episode exSeries.episodes ≠ some (exEp 3 .unseen) :=
  (create_playlist_eligible_spec ⟨[], [exSeries]⟩).2.2 exSeries (by simp)
    (exEp 2 .unseen) (by simp [exSeries]) (exEp 3 .unseen) (by rfl)
    (by right; constructor <;> decide)

/-! ## `MediaScanner.scan` (src/pondtv/src/media_scanner.py)

The merging scanner loads the existing database, builds two
last-occurrence-wins maps keyed by `filepath` (a Python dict comprehension
over the movies and over all series' episodes), then walks the `Movies`
directory listing and the `TV_Shows` series/season directory listings. A
movie file is admitted when its lowercased name ends with one of
`('.mp4', '.mkv', '.avi', '.mov', '.m4v')` and the regex
`(.+?)\s*\((\d{4})\)` matches the start of its stem; an episode file is
admitted when the extension check passes and `.*?s(\d{1,2})e(\d{1,2})`
(ignorecase) matches the start of its name. Each produced entry takes its
`status` and `resume_position` from the old entry for the same `filepath`
when one exists, and `'Unseen'` / `None` otherwise; the database is rebuilt
from the walk, so paths no longer on disk are dropped. The directory walk is
modelled by explicit listings. -/

/-- Listings of the media drive: the file names inside `Movies/`, and for each
directory inside `TV_Shows/` its name with, for each season directory inside
it, the season directory name and its file names (the `os.path.isdir` checks
of the source select exactly these). -/
structure MediaTree where
  movieFiles : List String
  shows : List (String × List (String × List String))

/-- Lowercasing of a Python `str.lower()` call, per character. -/
def lowerStr (s : String) : String := String.mk (s.toList.map Char.toLower)

/-- Extension admission filter `filename.lower().endswith(self.video_formats)`. -/
def videoExt (filename : String) : Bool :=
  [".mp4", ".mkv", ".avi", ".mov", ".m4v"].any
    (fun ext => ext.toList.isSuffixOf (lowerStr filename).toList)

/-- Whitespace strip of Python `str.strip()`, both ends. -/
def stripStr (s : String) : String :=
  String.mk (((s.toList.dropWhile Char.isWhitespace).reverse.dropWhile
    Char.isWhitespace).reverse)

/-- Stem of `os.path.splitext`: drop the extension starting at the last dot,
where leading dots of the name do not start an extension. -/
def splitextRoot (s : String) : String :=
  let cs := s.toList
  let lead := cs.takeWhile (· == '.')
  let rest := cs.dropWhile (· == '.')
  match rest.reverse.findIdx? (· == '.') with
  | none => s
  | some i => String.mk (lead ++ rest.take (rest.length - 1 - i))

/-- Digit value of an ASCII digit character. -/
def digitVal (c : Char) : Nat := c.toNat - 48

/-- Match of `\s*\((\d{4})\)` at the head of the character list: greedy
whitespace, an opening parenthesis, four digits, a closing parenthesis. -/
def tryYearAt (cs : List Char) : Option Nat :=
  match cs.dropWhile (fun c => c.isWhitespace) with
  | '(' :: d1 :: d2 :: d3 :: d4 :: ')' :: _ =>
    if d1.isDigit && d2.isDigit && d3.isDigit && d4.isDigit then
      some (1000 * digitVal d1 + 100 * digitVal d2 + 10 * digitVal d3 + digitVal d4)
    else none
  | _ => none

/-- Backtracking loop of `re.match(r'(.+?)\s*\((\d{4})\)', stem)`: the lazy
group tries the shortest title first (at least one character, never a
newline), the rest of the input must then match `\s*\((\d{4})\)`. -/
def movieMatchAux (acc : List Char) : List Char → Option (String × Nat)
  | [] => none
  | c :: rest =>
    if c = '\n' then none
    else
      match tryYearAt rest with
      | some y => some (String.mk (acc ++ [c]), y)
      | none => movieMatchAux (acc ++ [c]) rest

/-- Model of `self.movie_regex.match(stem)` returning `(title, year)` groups. -/
def movieMatch (stem : String) : Option (String × Nat) :=
  movieMatchAux [] stem.toList

/-- Two-digit value. -/
def digit2 (d1 d2 : Char) : Nat := 10 * digitVal d1 + digitVal d2

/-- Match of the trailing `(\d{1,2})` group: greedy, one or two digits. -/
def tryEpisodeNum : List Char → Option Nat
  | [] => none
  | [d1] => if d1.isDigit then some (digitVal d1) else none
  | d1 :: d2 :: _ =>
    if d1.isDigit then
      if d2.isDigit then some (digit2 d1 d2) else some (digitVal d1)
    else none

/-- Match of `s(\d{1,2})e(\d{1,2})` (ignorecase) at the head of the character
list, with the greedy-then-backtrack behaviour of `\d{1,2}` before `e`. -/
def trySE (cs : List Char) : Option (Nat × Nat) :=
  match cs with
  | [] => none
  | s :: rest =>
    if s.toLower = 's' then
      match rest with
      | [] => none
      | d1 :: rest1 =>
        if d1.isDigit then
          match rest1 with
          | [] => none
          | d2 :: rest2 =>
            if d2.isDigit then
              match rest2 with
              | [] => none
              | e :: rest3 =>
                if e.toLower = 'e' then
                  (tryEpisodeNum rest3).map (fun ep => (digit2 d1 d2, ep))
                else none
            else
              if d2.toLower = 'e' then
                (tryEpisodeNum rest2).map (fun ep => (digitVal d1, ep))
              else none
        else none
    else none

/-- Model of `self.series_regex.match(filename)` for
`.*?s(\d{1,2})e(\d{1,2})` (ignorecase): the lazy gap scans start positions
left to right (never across a newline) until `s<season>e<episode>` matches. -/
def seriesMatchAux : List Char → Option (Nat × Nat)
  | [] => none
  | c :: rest =>
    match trySE (c :: rest) with
    | some r => some r
    | none => if c = '\n' then none else seriesMatchAux rest

/-- Season and episode groups of the series regex on a file name. -/
def seriesMatch (s : String) : Option (Nat × Nat) :=
  seriesMatchAux s.toList

/-- Last old movie stored under a file path
(`{m['filepath']: m for m in old_movies}`: later entries overwrite). -/
def lastMovieFor (ms : List MovieEntry) (fp : String) : Option MovieEntry :=
  (ms.filter (fun m => m.filepath == fp)).getLast?

/-- Status and resume position the scanner gives a movie at path `fp`:
the old entry's values when present (`movie_data.get('status', 'Unseen')`,
`movie_data.get('resume_position', None)`), else `'Unseen'` and `None`. -/
def movieSR (ms : List MovieEntry) (fp : String) : Status × Option Int :=
  match lastMovieFor ms fp with
  | some o => (o.status, o.resume_position)
  | none => (.unseen, none)

/-- Last old episode stored under a file path, across all series
(`{e['filepath']: e for s in ... for e in s.get('episodes', [])}`). -/
def lastEpisodeFor (ss : List SeriesEntry) (fp : String) : Option EpisodeEntry :=
  ((ss.flatMap (fun s => s.episodes)).filter (fun e => e.filepath == fp)).getLast?

/-- Status and resume position the scanner gives an episode at path `fp`. -/
def epSR (ss : List SeriesEntry) (fp : String) : Status × Option Int :=
  match lastEpisodeFor ss fp with
  | some o => (o.status, o.resume_position)
  | none => (.unseen, none)

/-- Processing of one name of the `Movies` listing: extension filter, regex
match on the stem, entry construction with the merge of old state. -/
def scanMovieFile (old : List MovieEntry) (filename : String) : Option MovieEntry :=
  if videoExt filename then
    match movieMatch (splitextRoot filename) with
    | some ty =>
      some { filepath := "Movies/" ++ filename, title := stripStr ty.1,
             year := some (ty.2 : Int), status := (movieSR old ("Movies/" ++ filename)).1,
             resume_position := (movieSR old ("Movies/" ++ filename)).2 }
    | none => none
  else none

/-- Movies section of the scan. -/
def scan_movies (old : List MovieEntry) (files : List String) : List MovieEntry :=
  files.filterMap (scanMovieFile old)

/-- Processing of one file of a season directory of a series. -/
def scanEpisodeFile (old : List SeriesEntry) (series_name folder filename : String) :
    Option EpisodeEntry :=
  if videoExt filename then
    match seriesMatch filename with
    | some se =>
      some { filepath := "TV_Shows/" ++ series_name ++ "/" ++ folder ++ "/" ++ filename,
             season := (se.1 : Int), episode := (se.2 : Int),
             status := (epSR old ("TV_Shows/" ++ series_name ++ "/" ++ folder ++ "/" ++ filename)).1,
             resume_position :=
               (epSR old ("TV_Shows/" ++ series_name ++ "/" ++ folder ++ "/" ++ filename)).2 }
    | none => none
  else none

/-- Episodes collected for one series directory, across its season
directories in listing order. -/
def scan_series_dir (old : List SeriesEntry) (series_name : String)
    (seasons : List (String × List String)) : List EpisodeEntry :=
  seasons.flatMap (fun sf => sf.2.filterMap (scanEpisodeFile old series_name sf.1))

/-- Model of `MediaScanner.scan`: rebuild the database from the walk, merging
per-path state from the old database; a series appears only when at least one
of its files matched (`if series_name not in new_db_data['series']` creates
the key on first episode). The Python method loads `old` through the
`DatabaseManager` and saves the result; here both ends are explicit. -/
def scan (tree : MediaTree) (old : DBContent) : DBContent :=
  { movies := scan_movies old.movies tree.movieFiles,
    series := tree.shows.filterMap (fun sh =>
      if (scan_series_dir old.series sh.1 sh.2).isEmpty then none
      else some ⟨sh.1, scan_series_dir old.series sh.1 sh.2⟩) }

/-! ### Merge-policy lemmas for the scanner -/

theorem scanMovieFile_some {old : List MovieEntry} {f : String} {m : MovieEntry}
    (h : scanMovieFile old f = some m) :
    m.filepath = "Movies/" ++ f ∧
      (m.status, m.resume_position) = movieSR old m.filepath := by
  unfold scanMovieFile at h
  split at h
  · cases hmt : movieMatch (splitextRoot f) with
    | some ty =>
      rw [hmt] at h
      obtain rfl : _ = m := by injection h
      exact ⟨rfl, rfl⟩
    | none => rw [hmt] at h; cases h
  · cases h

theorem scanMovieFile_none {o1 o2 : List MovieEntry} {f : String}
    (h : scanMovieFile o1 f = none) : scanMovieFile o2 f = none := by
  unfold scanMovieFile at h ⊢
  split at h
  · cases hmt : movieMatch (splitextRoot f) with
    | some ty => rw [hmt] at h; cases h
    | none => simp [*]
  · simp [*]

theorem scanMovieFile_congr {o1 o2 : List MovieEntry} {f : String}
    (h : movieSR o1 ("Movies/" ++ f) = movieSR o2 ("Movies/" ++ f)) :
    scanMovieFile o1 f = scanMovieFile o2 f := by
  unfold scanMovieFile
  rw [h]

theorem movieSR_congr {ms old : List MovieEntry}
    (hpt : ∀ m ∈ ms, (m.status, m.resume_position) = movieSR old m.filepath)
    {p : String} (hp : ∃ m ∈ ms, m.filepath = p) :
    movieSR ms p = movieSR old p := by
  obtain ⟨m, hm, rfl⟩ := hp
  cases hlast : lastMovieFor ms m.filepath with
  | none =>
    exfalso
    have : m ∈ ms.filter (fun x => x.filepath == m.filepath) :=
      List.mem_filter.mpr ⟨hm, by simp⟩
    rw [lastMovieFor, List.getLast?_eq_none_iff] at hlast
    simp [hlast] at this
  | some e =>
    have hmem : e ∈ ms.filter (fun x => x.filepath == m.filepath) :=
      List.mem_of_mem_getLast? hlast
    have he : e ∈ ms ∧ e.filepath = m.filepath := by
      have := List.mem_filter.mp hmem
      exact ⟨this.1, by simpa using this.2⟩
    calc movieSR ms m.filepath = (e.status, e.resume_position) := by
          simp [movieSR, hlast]
      _ = movieSR old e.filepath := hpt e he.1
      _ = movieSR old m.filepath := by rw [he.2]

theorem scan_movies_sr {old : List MovieEntry} {files : List String} :
    ∀ m ∈ scan_movies old files,
      (m.status, m.resume_position) = movieSR old m.filepath ∧
        m.filepath ∈ files.map (fun f => "Movies/" ++ f) := by
  intro m hm
  obtain ⟨f, hf, hsome⟩ := List.mem_filterMap.mp hm
  obtain ⟨hpath, hsr⟩ := scanMovieFile_some hsome
  exact ⟨hsr, List.mem_map.mpr ⟨f, hf, hpath.symm⟩⟩

theorem scanMovieFile_pt {old : List MovieEntry} {files : List String} {f : String}
    (hf : f ∈ files) :
    scanMovieFile (scan_movies old files) f = scanMovieFile old f := by
  suffices h : ∀ o, scanMovieFile old f = o → scanMovieFile (scan_movies old files) f = o by
    exact h _ rfl
  intro o ho
  cases o with
  | none => exact scanMovieFile_none ho
  | some m =>
    obtain ⟨hpath, _⟩ := scanMovieFile_some ho
    have hmem : m ∈ scan_movies old files :=
      List.mem_filterMap.mpr ⟨f, hf, ho⟩
    have hsr : movieSR (scan_movies old files) ("Movies/" ++ f) =
        movieSR old ("Movies/" ++ f) := by
      rw [← hpath]
      exact movieSR_congr (fun x hx => (scan_movies_sr x hx).1) ⟨m, hmem, rfl⟩
    exact (scanMovieFile_congr hsr).trans ho

theorem scan_movies_idem (old : List MovieEntry) (files : List String) :
    scan_movies (scan_movies old files) files = scan_movies old files :=
  List.filterMap_congr (fun _ hf => scanMovieFile_pt hf)

theorem scanEpisodeFile_some {old : List SeriesEntry} {nm folder f : String}
    {e : EpisodeEntry} (h : scanEpisodeFile old nm folder f = some e) :
    e.filepath = "TV_Shows/" ++ nm ++ "/" ++ folder ++ "/" ++ f ∧
      (e.status, e.resume_position) = epSR old e.filepath := by
  unfold scanEpisodeFile at h
  split at h
  · cases hmt : seriesMatch f with
    | some se =>
      rw [hmt] at h
      obtain rfl : _ = e := by injection h
      exact ⟨rfl, rfl⟩
    | none => rw [hmt] at h; cases h
  · cases h

theorem scanEpisodeFile_none {o1 o2 : List SeriesEntry} {nm folder f : String}
    (h : scanEpisodeFile o1 nm folder f = none) : scanEpisodeFile o2 nm folder f = none := by
  unfold scanEpisodeFile at h ⊢
  split at h
  · cases hmt : seriesMatch f with
    | some se => rw [hmt] at h; cases h
    | none => simp [*]
  · simp [*]

theorem scanEpisodeFile_congr {o1 o2 : List SeriesEntry} {nm folder f : String}
    (h : epSR o1 ("TV_Shows/" ++ nm ++ "/" ++ folder ++ "/" ++ f) =
         epSR o2 ("TV_Shows/" ++ nm ++ "/" ++ folder ++ "/" ++ f)) :
    scanEpisodeFile o1 nm folder f = scanEpisodeFile o2 nm folder f := by
  unfold scanEpisodeFile
  rw [h]

theorem epSR_congr {ss old : List SeriesEntry}
    (hpt : ∀ e ∈ ss.flatMap (fun s => s.episodes),
      (e.status, e.resume_position) = epSR old e.filepath)
    {p : String} (hp : ∃ e ∈ ss.flatMap (fun s => s.episodes), e.filepath = p) :
    epSR ss p = epSR old p := by
  obtain ⟨e, he, rfl⟩ := hp
  cases hlast : lastEpisodeFor ss e.filepath with
  | none =>
    exfalso
    have : e ∈ (ss.flatMap (fun s => s.episodes)).filter
        (fun x => x.filepath == e.filepath) :=
      List.mem_filter.mpr ⟨he, by simp⟩
    rw [lastEpisodeFor, List.getLast?_eq_none_iff] at hlast
    simp [hlast] at this
  | some x =>
    have hmem : x ∈ (ss.flatMap (fun s => s.episodes)).filter
        (fun y => y.filepath == e.filepath) :=
      List.mem_of_mem_getLast? hlast
    have hx : x ∈ ss.flatMap (fun s => s.episodes) ∧ x.filepath = e.filepath := by
      have := List.mem_filter.mp hmem
      exact ⟨this.1, by simpa using this.2⟩
    calc epSR ss e.filepath = (x.status, x.resume_position) := by
          simp [epSR, hlast]
      _ = epSR old x.filepath := hpt x hx.1
      _ = epSR old e.filepath := by rw [hx.2]

theorem mem_scan_series_dir {old : List SeriesEntry} {nm : String}
    {seasons : List (String × List String)} {e : EpisodeEntry}
    (h : e ∈ scan_series_dir old nm seasons) :
    ∃ folder files, (folder, files) ∈ seasons ∧ ∃ f ∈ files,
      scanEpisodeFile old nm folder f = some e := by
  obtain ⟨sf, hsf, he⟩ := List.mem_flatMap.mp h
  obtain ⟨f, hf, hsome⟩ := List.mem_filterMap.mp he
  exact ⟨sf.1, sf.2, by simpa using hsf, f, hf, hsome⟩

theorem scan_series_sr {tree : MediaTree} {old : DBContent} :
    ∀ s ∈ (scan tree old).series, ∀ e ∈ s.episodes,
      (e.status, e.resume_position) = epSR old.series e.filepath ∧
        ∃ sh ∈ tree.shows, ∃ sf ∈ sh.2, ∃ f ∈ sf.2,
          e.filepath = "TV_Shows/" ++ sh.1 ++ "/" ++ sf.1 ++ "/" ++ f := by
  intro s hs e he
  obtain ⟨sh, hsh, hmk⟩ := List.mem_filterMap.mp hs
  by_cases hne : (scan_series_dir old.series sh.1 sh.2).isEmpty = true
  · rw [if_pos hne] at hmk
    cases hmk
  · rw [if_neg hne] at hmk
    obtain rfl : (⟨sh.1, scan_series_dir old.series sh.1 sh.2⟩ : SeriesEntry) = s := by
      injection hmk
    obtain ⟨folder, files, hseason, f, hf, hsome⟩ := mem_scan_series_dir he
    obtain ⟨hpath, hsr⟩ := scanEpisodeFile_some hsome
    exact ⟨hsr, sh, hsh, (folder, files), hseason, f, hf, hpath⟩

theorem mem_flat_scan_series {tree : MediaTree} {old : DBContent} {sh : String × List (String × List String)}
    (hsh : sh ∈ tree.shows) {e : EpisodeEntry}
    (he : e ∈ scan_series_dir old.series sh.1 sh.2) :
    e ∈ (scan tree old).series.flatMap (fun s => s.episodes) := by
  apply List.mem_flatMap.mpr
  refine ⟨⟨sh.1, scan_series_dir old.series sh.1 sh.2⟩, ?_, he⟩
  apply List.mem_filterMap.mpr
  refine ⟨sh, hsh, ?_⟩
  have hne : (scan_series_dir old.series sh.1 sh.2).isEmpty = false := by
    rcases hl : scan_series_dir old.series sh.1 sh.2 with _ | ⟨a, l⟩
    · rw [hl] at he; cases he
    · simp
  simp [hne]

theorem flatMap_congr_on {α β : Type} {f g : α → List β} {l : List α}
    (h : ∀ a ∈ l, f a = g a) : l.flatMap f = l.flatMap g := by
  induction l with
  | nil => rfl
  | cons a l ih =>
    rw [List.flatMap_cons, List.flatMap_cons, h a (List.mem_cons_self a l),
      ih (fun x hx => h x (List.mem_cons_of_mem a hx))]

theorem scan_series_flat_sr {tree : MediaTree} {old : DBContent} :
    ∀ e ∈ (scan tree old).series.flatMap (fun s => s.episodes),
      (e.status, e.resume_position) = epSR old.series e.filepath := by
  intro e he
  obtain ⟨s, hs, he'⟩ := List.mem_flatMap.mp he
  exact (scan_series_sr s hs e he').1

theorem scanEpisodeFile_pt (tree : MediaTree) (old : DBContent)
    {sh : String × List (String × List String)} (hsh : sh ∈ tree.shows)
    {sf : String × List String} (hsf : sf ∈ sh.2) {f : String} (hf : f ∈ sf.2) :
    scanEpisodeFile (scan tree old).series sh.1 sf.1 f =
      scanEpisodeFile old.series sh.1 sf.1 f := by
  suffices h : ∀ o, scanEpisodeFile old.series sh.1 sf.1 f = o →
      scanEpisodeFile (scan tree old).series sh.1 sf.1 f = o by
    exact h _ rfl
  intro o ho
  cases o with
  | none => exact scanEpisodeFile_none ho
  | some e =>
    obtain ⟨hpath, _⟩ := scanEpisodeFile_some ho
    have hgen : e ∈ scan_series_dir old.series sh.1 sh.2 :=
      List.mem_flatMap.mpr ⟨sf, hsf, List.mem_filterMap.mpr ⟨f, hf, ho⟩⟩
    have hflat : e ∈ (scan tree old).series.flatMap (fun s => s.episodes) :=
      mem_flat_scan_series hsh hgen
    have hsr : epSR (scan tree old).series ("TV_Shows/" ++ sh.1 ++ "/" ++ sf.1 ++ "/" ++ f) =
        epSR old.series ("TV_Shows/" ++ sh.1 ++ "/" ++ sf.1 ++ "/" ++ f) := by
      rw [← hpath]
      exact epSR_congr scan_series_flat_sr ⟨e, hflat, rfl⟩
    exact (scanEpisodeFile_congr hsr).trans ho

theorem scan_series_dir_idem (tree : MediaTree) (old : DBContent)
    {sh : String × List (String × List String)} (hsh : sh ∈ tree.shows) :
    scan_series_dir (scan tree old).series sh.1 sh.2 =
      scan_series_dir old.series sh.1 sh.2 :=
  flatMap_congr_on (fun sf hsf =>
    List.filterMap_congr (fun _ hf => scanEpisodeFile_pt tree old hsh hsf hf))

/-- C4 (amended): the scanner merges rather than replaces — every movie and
episode of the scanned catalog takes its status and resume position from the
old entry at the same file path when one exists (`movieSR` / `epSR`: old
values, or `'Unseen'` with an unset resume position for a newly discovered
path) and every persisted path comes from the current directory tree, so a
path no longer on disk is absent; re-scanning the unchanged tree is
idempotent. -/
theorem scan_merge_spec (tree : MediaTree) (old : DBContent) :
    (∀ m ∈ (scan tree old).movies,
      (m.status, m.resume_position) = movieSR old.movies m.filepath ∧
        m.filepath ∈ tree.movieFiles.map (fun f => "Movies/" ++ f)) ∧
    (∀ s ∈ (scan tree old).series, ∀ e ∈ s.episodes,
      (e.status, e.resume_position) = epSR old.series e.filepath ∧
        ∃ sh ∈ tree.shows, ∃ sf ∈ sh.2, ∃ f ∈ sf.2,
          e.filepath = "TV_Shows/" ++ sh.1 ++ "/" ++ sf.1 ++ "/" ++ f) ∧
    scan tree (scan tree old) = scan tree old := by
  refine ⟨scan_movies_sr, scan_series_sr, ?_⟩
  have hm : (scan tree (scan tree old)).movies = (scan tree old).movies :=
    scan_movies_idem old.movies tree.movieFiles
  have hs : (scan tree (scan tree old)).series = (scan tree old).series := by
    apply List.filterMap_congr
    intro sh hsh
    exact congrArg
      (fun l : List EpisodeEntry =>
        if l.isEmpty then none else some (⟨sh.1, l⟩ : SeriesEntry))
      (scan_series_dir_idem tree old hsh)
  calc scan tree (scan tree old)
      = ⟨(scan tree (scan tree old)).movies, (scan tree (scan tree old)).series⟩ := rfl
    _ = ⟨(scan tree old).movies, (scan tree old).series⟩ := by rw [hm, hs]
    _ = scan tree old := rfl

/-- Counterexample to C4 as stated: scanning a drive holding one new movie
file over an empty catalog persists the new entry with an *unset* resume
position (YAML null), not the integer 0 the claim requires. -/
theorem scan_new_entry_resume_unset :
    (scan ⟨["Inception (2010).mkv"], []⟩ DBContent.empty).movies =
      [{ filepath := "Movies/Inception (2010).mkv", title := "Inception",
         year := some 2010, status := .unseen, resume_position := none }] ∧
    (none : Option Int) ≠ some 0 := by
  exact ⟨by decide, by simp⟩

/-- Entry produced for the single movie of the C4 witness tree when rescanning
over a catalog that already holds it as `Seen`, interrupted at 11 seconds. -/
def c4old : DBContent :=
  ⟨[⟨"Movies/Inception (2010).mkv", "Inception", some 2010, .seen, some 11⟩], []⟩

/-- Witness for C4 (amended) at a concrete tree and catalog: rescanning keeps
the existing entry's `Seen` status and resume position 11. -/
theorem scan_merge_spec_witness :
    ((⟨"Movies/Inception (2010).mkv", "Inception", some 2010, .seen, some 11⟩ :
        MovieEntry).status,
     (⟨"Movies/Inception (2010).mkv", "Inception", some 2010, .seen, some 11⟩ :
        MovieEntry).resume_position) =
      movieSR c4old.movies
        (⟨"Movies/Inception (2010).mkv", "Inception", some 2010, .seen, some 11⟩ :
          MovieEntry).filepath ∧
    (⟨"Movies/Inception (2010).mkv", "Inception", some 2010, .seen, some 11⟩ :
        MovieEntry).filepath ∈
      (⟨["Inception (2010).mkv"], []⟩ : MediaTree).movieFiles.map
        (fun f => "Movies/" ++ f) :=
  (scan_merge_spec ⟨["Inception (2010).mkv"], []⟩ c4old).1
    ⟨"Movies/Inception (2010).mkv", "Inception", some 2010, .seen, some 11⟩
    (by decide)

/-! ## Playback orchestrator (src/pondtv/src/main.py)

The `start_playback` loop iterates the playlist by index while
`self.running and 0 <= self.current_index < len(self.current_playlist)`.
Before each item it re-verifies the volume
(`self.usb_manager.is_drive_still_connected`): when disconnected it `break`s
out of the loop without touching the index or the database; `run`'s
`finally` block then cleans up the media components (shutting the player
down) and the loop re-enters `wait_for_media_drive`, which sets the state
to `WAITING_FOR_MEDIA`. When connected, the item is played, the inner loop
reports whether the user interrupted it, `update_media_status` persists
status/resume, and the index advances only on natural completion. -/

/-- Application states of the `AppState` enum. -/
inductive AppState where
  | starting
  | waiting_for_media
  | initializing
  | playing
  | shutting_down
deriving DecidableEq, Repr

/-- File path a playlist item resolves back to. -/
def PlaylistItem.filepath : PlaylistItem → String
  | .movie m => m.filepath
  | .episode _ e => e.filepath

/-- Status field carried by a playlist item
(`media_item.get('status', 'Unseen')`). -/
def PlaylistItem.statusOf : PlaylistItem → Status
  | .movie m => m.status
  | .episode _ e => e.status

/-- Orchestrator state: application state, running flag, playlist and index,
whether the player holds an active media session, and the persisted catalog. -/
structure OrchState where
  app_state : AppState
  running : Bool
  current_index : Nat
  playlist : List PlaylistItem
  player_active : Bool
  db : DBContent
deriving Repr

/-- One iteration of the `start_playback` loop together with the `run`-loop
continuation taken when the loop ends: on a false guard or a disconnect the
loop ends, `_cleanup_media_components` shuts the player down and
`wait_for_media_drive` sets `WAITING_FOR_MEDIA`; otherwise the item at the
current index plays, `update_media_status` persists its new status/resume
(the catalog is unchanged when the path is absent, as the Python method just
logs the failed lookup), and the index advances only when not interrupted. -/
def playingStep (s : OrchState) (connected : Bool) (interrupted : Bool)
    (position duration : ℚ) : OrchState :=
  if s.running && decide (s.current_index < s.playlist.length) then
    if !connected then
      { s with app_state := .waiting_for_media, player_active := false }
    else
      match s.playlist[s.current_index]? with
      | some item =>
        let db' := (update_media_status s.db item.filepath item.statusOf
          interrupted false position duration).getD s.db
        { s with db := db',
                 player_active := true,
                 current_index :=
                   if interrupted then s.current_index else s.current_index + 1 }
      | none => s
  else
    { s with app_state := .waiting_for_media, player_active := false }

/-- C8: a disconnect observed during the playing loop stops the current item
and returns to `WaitingForMedia` with the playlist index and the catalog both
exactly as they were — no index advance and no `Seen` write ever results from
a disconnect. -/
theorem playingStep_disconnect (s : OrchState) (interrupted : Bool)
    (position duration : ℚ) (hrun : s.running = true)
    (hidx : s.current_index < s.playlist.length) :
    playingStep s false interrupted position duration =
      { s with app_state := .waiting_for_media, player_active := false } := by
  simp [playingStep, hrun, hidx]

/-- Concrete orchestrator state for the C8 witness: mid-playlist, running. -/
def c8state : OrchState :=
  { app_state := .playing, running := true, current_index := 0,
    playlist := [.movie ⟨"Movies/m.mkv", "M", none, .unseen, some 42⟩],
    player_active := true, db := c2db }

/-- Witness for C8 at a concrete state: the disconnect transition leaves index
0 and the catalog untouched and moves to `WaitingForMedia`. -/
theorem playingStep_disconnect_witness :
    playingStep c8state false false 10 100 =
      { c8state with app_state := .waiting_for_media, player_active := false } :=
  playingStep_disconnect c8state false 10 100 (by rfl) (by decide)

/-! ## Catalog-store ownership (C9)

`DatabaseManager.load` parses the YAML file afresh on every call, so the
orchestrator's `db_content`, the playlist built from it, and the player's
`current_item` alias each other but never the persisted file. The playlist
engine mutates the loaded copy in place (it adds a `series_name` key to each
selected episode dict), the player's time-position observer writes
`resume_position` into the currently playing item, and the end-of-file
handler marks it Seen — all through those aliases. The persisted catalog is
written only by `update_item_status`, which itself re-loads the file, so the
state observable through the store changes only via store operations. The
in-memory copy is modelled with an explicit `series_name` tag slot on each
episode dict. -/

/-- Episode dict of the in-memory copy: the parsed entry plus the optional
`series_name` key the playlist engine writes into it. -/
structure MemEpisode where
  entry : EpisodeEntry
  series_name_key : Option String
deriving DecidableEq, Repr

/-- Series dict of the in-memory copy. -/
structure MemSeries where
  series_name : String
  episodes : List MemEpisode
deriving DecidableEq, Repr

/-- In-memory catalog copy held by the orchestrator and aliased by playlist
items and the player's current item. -/
structure MemDB where
  movies : List MovieEntry
  series : List MemSeries
deriving DecidableEq, Repr

/-- Fresh parse of the persisted catalog (`yaml.safe_load` builds new
objects, so the copy shares nothing with the file). -/
def loadMem (db : DBContent) : MemDB :=
  { movies := db.movies,
    series := db.series.map (fun s =>
      ⟨s.series_name, s.episodes.map (fun e => ⟨e, none⟩)⟩) }

/-- Playlist engine's in-place tagging of one series: the selected next
unseen episode dict receives the `series_name` key
(`next_unseen_episode['series_name'] = series.get('series_name')`). -/
def tagNext (s : MemSeries) : MemSeries :=
  match next_unseen_episode (s.episodes.map (fun me => me.entry)) with
  | none => s
  | some e =>
    { s with episodes := s.episodes.map (fun me =>
        if me.entry.filepath = e.filepath then
          { me with series_name_key := some s.series_name }
        else me) }

/-- Mutation of `PlayerController._time_pos_handler` through the alias: the
current item's dict gets `resume_position = value`. -/
def memTimePos (m : MemDB) (fp : String) (v : Int) : MemDB :=
  { movies := m.movies.map (fun mv =>
      if mv.filepath = fp then { mv with resume_position := some v } else mv),
    series := m.series.map (fun s =>
      ⟨s.series_name, s.episodes.map (fun me =>
        if me.entry.filepath = fp then
          ⟨{ me.entry with resume_position := some v }, me.series_name_key⟩
        else me)⟩) }

/-- Mutation of `PlayerController._end_file_handler` through the alias: the
current item's dict gets `status = 'Seen'`, `resume_position = 0`. -/
def memEndFile (m : MemDB) (fp : String) : MemDB :=
  { movies := m.movies.map (fun mv =>
      if mv.filepath = fp then
        { mv with status := .seen, resume_position := some 0 }
      else mv),
    series := m.series.map (fun s =>
      ⟨s.series_name, s.episodes.map (fun me =>
        if me.entry.filepath = fp then
          ⟨{ me.entry with status := .seen, resume_position := some 0 },
            me.series_name_key⟩
        else me)⟩) }

/-- Operations of a play session touching the catalog or its loaded copy. -/
inductive SessionOp where
  | load
  | create_playlist
  | time_pos (fp : String) (v : Int)
  | end_file (fp : String)
  | update_item (fp : String) (st : Status) (rp : Option Int)

/-- System state: the persisted catalog file owned by the store, and the
orchestrator's in-memory copy. -/
structure Sys where
  file : DBContent
  mem : MemDB

/-- Semantics of one session operation. Only `update_item` — the store's
read-modify-write under its lock — touches the file; it re-loads the file
itself, so its effect is independent of the in-memory copy. -/
def sysStep (s : Sys) : SessionOp → Sys
  | .load => { s with mem := loadMem s.file }
  | .create_playlist => { s with mem := { s.mem with series := s.mem.series.map tagNext } }
  | .time_pos fp v => { s with mem := memTimePos s.mem fp v }
  | .end_file fp => { s with mem := memEndFile s.mem fp }
  | .update_item fp st rp =>
    { s with file := (update_item_status s.file fp st rp).getD s.file }

/-- Run of a session operation sequence. -/
def runOps (s : Sys) : List SessionOp → Sys
  | [] => s
  | op :: ops => runOps (sysStep s op) ops

/-- Effect of an operation on the persisted file alone. -/
def fileEffect (db : DBContent) : SessionOp → DBContent
  | .update_item fp st rp => (update_item_status db fp st rp).getD db
  | _ => db

/-- C9: after any sequence of playlist-selector and playback operations, the
catalog observable through the store is the fold of only the store's update
operations over the initial file — loading, playlist construction and the
aliased in-place mutations of playlist items and of the currently playing
item never change it. -/
theorem store_owns_catalog (ops : List SessionOp) (s : Sys) :
    (runOps s ops).file = ops.foldl fileEffect s.file := by
  induction ops generalizing s with
  | nil => rfl
  | cons op ops ih =>
    rw [runOps, List.foldl_cons, ih]
    cases op <;> rfl

/-! ## Heuristic scanner of src/pondtv/media_scanner.py (C6, C7)

This sibling scanner classifies episodes with a cascade of regexes applied
by `re.search` (leftmost match, backtracking), and cleans movie names with
two `re.sub` passes. The patterns:

* `YEAR_REGEX = \(?(\d{4})\)?`
* `SEASON_EPISODE_REGEX = [._\s-](s|season)?(\d{1,2})[ex](\d{1,3})[._\s-]` (ignorecase)
* season token in the path: `(s|season)[\s_.]?(\d{1,2})` (ignorecase)
* `EPISODE_REGEX = [._\s-](e|ep|episode|\dof)(\d{1,3})[._\s-]` (ignorecase)
* sample filter: `[._\s-](sample|trailer|extra)[._\s-]` (ignorecase)
* tag removal: `\[.*?\]|\(.*?\)|1080p|720p|bluray|webrip|h264|x265|aac` (ignorecase)

Each is embedded as an explicit backtracking matcher with the Python engine's
ordering: alternatives in written order, `?` and `{m,n}` greedy with
backtracking, positions scanned left to right. -/

/-- Character class `[._\s-]`. -/
def isSepChar (c : Char) : Bool :=
  c == '.' || c == '_' || c == '-' || c.isWhitespace

/-- First success of `f` over a list of candidates, in order — the
backtracking order of a regex alternation. -/
def firstSome {α β : Type} (f : α → Option β) : List α → Option β
  | [] => none
  | a :: as =>
    match f a with
    | some b => some b
    | none => firstSome f as

/-- Case-insensitive literal match at the head, returning the rest. -/
def matchPrefixCI (pat : List Char) (cs : List Char) : Option (List Char) :=
  match pat, cs with
  | [], rest => some rest
  | _ :: _, [] => none
  | p :: ps, c :: rest => if c.toLower = p then matchPrefixCI ps rest else none

/-- Candidate matches of `(\d{1,2})` in greedy order: two digits first, then
one, each with the remaining input. -/
def digitSplits2 : List Char → List (Nat × List Char)
  | [] => []
  | [d1] => if d1.isDigit then [(digitVal d1, [])] else []
  | d1 :: d2 :: rest =>
    if d1.isDigit then
      if d2.isDigit then [(digit2 d1 d2, rest), (digitVal d1, d2 :: rest)]
      else [(digitVal d1, d2 :: rest)]
    else []

/-- Candidate matches of `(\d{1,3})` in greedy order. -/
def digitSplits3 : List Char → List (Nat × List Char)
  | [] => []
  | [d1] => if d1.isDigit then [(digitVal d1, [])] else []
  | [d1, d2] =>
    if d1.isDigit then
      if d2.isDigit then [(digit2 d1 d2, []), (digitVal d1, [d2])]
      else [(digitVal d1, [d2])]
    else []
  | d1 :: d2 :: d3 :: rest =>
    if d1.isDigit then
      if d2.isDigit then
        if d3.isDigit then
          [(100 * digitVal d1 + digit2 d2 d3, rest), (digit2 d1 d2, d3 :: rest),
            (digitVal d1, d2 :: d3 :: rest)]
        else [(digit2 d1 d2, d3 :: rest), (digitVal d1, d2 :: d3 :: rest)]
      else [(digitVal d1, d2 :: d3 :: rest)]
    else []

/-- Match of `SEASON_EPISODE_REGEX` anchored at the head: a separator, the
optional greedy `(s|season)?`, one or two season digits, `[ex]`, one to
three episode digits, a separator. -/
def seasonEpisodeAt (cs : List Char) : Option (Nat × Nat) :=
  match cs with
  | [] => none
  | c0 :: rest0 =>
    if isSepChar c0 then
      firstSome (fun pre =>
        match matchPrefixCI pre rest0 with
        | none => none
        | some rest1 =>
          firstSome (fun sd =>
            match sd.2 with
            | [] => none
            | c :: rest3 =>
              if c.toLower = 'e' || c.toLower = 'x' then
                firstSome (fun ed =>
                  match ed.2 with
                  | c4 :: _ => if isSepChar c4 then some (sd.1, ed.1) else none
                  | [] => none) (digitSplits3 rest3)
              else none) (digitSplits2 rest1))
        [['s'], ['s', 'e', 'a', 's', 'o', 'n'], ([] : List Char)]
    else none

/-- Search of `SEASON_EPISODE_REGEX` over a filename: leftmost start
position wins. -/
def seasonEpisodeSearch (s : String) : Option (Nat × Nat) :=
  firstSome seasonEpisodeAt s.toList.tails

/-- Match of the path season token `(s|season)[\s_.]?(\d{1,2})` at the head:
the alternation, a greedy optional separator of class `[\s_.]`, season
digits. -/
def seasonTokenAt (cs : List Char) : Option Nat :=
  firstSome (fun pre =>
    match matchPrefixCI pre cs with
    | none => none
    | some rest1 =>
      let digitsHead : List Char → Option Nat := fun rest =>
        match digitSplits2 rest with
        | sd :: _ => some sd.1
        | [] => none
      let withSep : Option Nat :=
        match rest1 with
        | c :: rest2 =>
          if c.isWhitespace || c == '_' || c == '.' then digitsHead rest2 else none
        | [] => none
      match withSep with
      | some v => some v
      | none => digitsHead rest1)
    [['s'], ['s', 'e', 'a', 's', 'o', 'n']]

/-- Search of the season token over the relative directory path. -/
def seasonTokenSearch (s : String) : Option Nat :=
  firstSome seasonTokenAt s.toList.tails

/-- Match of `EPISODE_REGEX` at the head: a separator, the alternation
`e|ep|episode|\dof` in written order, one to three digits, a separator. -/
def episodeTokenAt (cs : List Char) : Option Nat :=
  match cs with
  | [] => none
  | c0 :: rest0 =>
    if isSepChar c0 then
      let digitsSep : List Char → Option Nat := fun rest1 =>
        firstSome (fun ed =>
          match ed.2 with
          | c4 :: _ => if isSepChar c4 then some ed.1 else none
          | [] => none) (digitSplits3 rest1)
      match firstSome (fun pre => (matchPrefixCI pre rest0).bind digitsSep)
          [['e'], ['e', 'p'], ['e', 'p', 'i', 's', 'o', 'd', 'e']] with
      | some v => some v
      | none =>
        match rest0 with
        | d :: o :: f :: rest1 =>
          if d.isDigit && o.toLower = 'o' && f.toLower = 'f' then digitsSep rest1
          else none
        | _ => none
    else none

/-- Search of `EPISODE_REGEX` over a filename. -/
def episodeTokenSearch (s : String) : Option Nat :=
  firstSome episodeTokenAt s.toList.tails

/-- Match of the sample filter `[._\s-](sample|trailer|extra)[._\s-]` at the
head. -/
def sampleTokenAt (cs : List Char) : Bool :=
  match cs with
  | [] => false
  | c0 :: rest0 =>
    isSepChar c0 &&
      ([['s','a','m','p','l','e'], ['t','r','a','i','l','e','r'],
        ['e','x','t','r','a']].any (fun pre =>
        match matchPrefixCI pre rest0 with
        | some (c :: _) => isSepChar c
        | _ => false))

/-- Search of the sample filter over the full file path. -/
def sampleSearch (s : String) : Bool :=
  s.toList.tails.any sampleTokenAt

/-- Model of `MediaScanner._is_valid_video` of src/pondtv/media_scanner.py:
extension allow-list `{.mkv,.mp4,.avi,.mov}` on the lowercased path, the
sample/trailer/extra token filter, and the 50 MB size threshold
(`size / (1024*1024) < 50` rejected); `none` for the size models the
`OSError` branch. -/
def is_valid_video (path : String) (size_bytes : Option Nat) : Bool :=
  ([".mkv", ".mp4", ".avi", ".mov"].any
      (fun ext => ext.toList.isSuffixOf (lowerStr path).toList)) &&
    !(sampleSearch path) &&
    (match size_bytes with
     | none => false
     | some n => decide (50 * 1024 * 1024 ≤ n))

/-- Model of `MediaScanner._parse_episode_info`: the regex cascade in source
order. `filename` is the basename of the file, `rel_path` the path of its
directory relative to the series root, `isShowRoot` whether the file sits
directly in the series root (`root_path == show_path`), and `rootListing`
the names and sizes of the series-root directory listing used by the
single-video rule. The second component is `none` when the file is
unclassifiable (the Python method returns `(season_num, None)` and the
caller drops the file). -/
def parse_episode_info (filename rel_path : String) (isShowRoot : Bool)
    (show_path : String) (rootListing : List (String × Option Nat)) : Nat × Option Nat :=
  match seasonEpisodeSearch filename with
  | some se => (se.1, some se.2)
  | none =>
    let season_num := (seasonTokenSearch rel_path).getD 1
    match episodeTokenSearch filename with
    | some ep => (season_num, some ep)
    | none =>
      if isShowRoot &&
          ((rootListing.filter (fun nf =>
            is_valid_video (show_path ++ "/" ++ nf.1) nf.2)).length == 1) then
        (1, some 1)
      else
        (season_num, none)

/-- C6: episode classification tries the rules in the fixed priority order —
(1) an SxxEyy-style token in the filename; (2) else the season from a
"season NN" token of the enclosing path (default 1) with the episode from an
E/EP/episode token of the filename; (3) else season 1 episode 1 when the
file is the only admitted video directly in the series root; otherwise the
file is excluded without error. In particular
`Shows/Foo/Season 02/Foo.E05.mkv` classifies as season 2, episode 5. -/
theorem parse_episode_info_priority :
    (∀ fn rp isr sp listing se, seasonEpisodeSearch fn = some se →
      parse_episode_info fn rp isr sp listing = (se.1, some se.2)) ∧
    (∀ fn rp isr sp listing ep, seasonEpisodeSearch fn = none →
      episodeTokenSearch fn = some ep →
      parse_episode_info fn rp isr sp listing =
        ((seasonTokenSearch rp).getD 1, some ep)) ∧
    (∀ fn rp sp listing, seasonEpisodeSearch fn = none →
      episodeTokenSearch fn = none →
      (listing.filter (fun nf =>
        is_valid_video (sp ++ "/" ++ nf.1) nf.2)).length = 1 →
      parse_episode_info fn rp true sp listing = (1, some 1)) ∧
    (∀ fn rp sp listing, seasonEpisodeSearch fn = none →
      episodeTokenSearch fn = none →
      (parse_episode_info fn rp false sp listing).2 = none) ∧
    parse_episode_info "Foo.E05.mkv" "Season 02" false "Shows/Foo" [] = (2, some 5) := by
  refine ⟨?_, ?_, ?_, ?_, by decide⟩
  · intro fn rp isr sp listing se h
    simp [parse_episode_info, h]
  · intro fn rp isr sp listing ep h1 h2
    simp [parse_episode_info, h1, h2]
  · intro fn rp sp listing h1 h2 h3
    simp [parse_episode_info, h1, h2, h3]
  · intro fn rp sp listing h1 h2
    simp [parse_episode_info, h1, h2]

/-- Witness for C6 at the spec example: with no SxxEyy token in
`Foo.E05.mkv`, rule (2) fires, taking the season from `Season 02` and the
episode from `.E05.`. -/
theorem parse_episode_info_priority_witness :
    parse_episode_info "Foo.E05.mkv" "Season 02" false "Shows/Foo" [] =
      ((seasonTokenSearch "Season 02").getD 1, some 5) :=
  parse_episode_info_priority.2.1 "Foo.E05.mkv" "Season 02" false "Shows/Foo" []
    5 (by decide) (by decide)

/-! ## `MediaScanner._clean_name` and the year extraction (C7)

`_clean_name` first strips every `\(?(\d{4})\)?` match (the year pass), then
every release-tag match of
`\[.*?\]|\(.*?\)|1080p|720p|bluray|webrip|h264|x265|aac` (ignorecase), then
replaces `.`/`_` with spaces, strips, and capitalizes each
whitespace-separated word. `_scan_movies` takes the year from
`YEAR_REGEX.search(movie_dir_name)`. The two `re.sub` passes are embedded
with a fuel argument bounded by the input length (every match consumes at
least one character, so the fuel never runs out). -/

/-- Match of `\(?(\d{4})\)?` anchored at the head, returning the year group
and the rest after the match (the optional closing parenthesis is consumed
when present). -/
def yearMatchAt (cs : List Char) : Option (Nat × List Char) :=
  match cs with
  | '(' :: d1 :: d2 :: d3 :: d4 :: rest =>
    if d1.isDigit && d2.isDigit && d3.isDigit && d4.isDigit then
      some (1000 * digitVal d1 + 100 * digitVal d2 + 10 * digitVal d3 + digitVal d4,
        match rest with
        | ')' :: r => r
        | r => r)
    else none
  | d1 :: d2 :: d3 :: d4 :: rest =>
    if d1.isDigit && d2.isDigit && d3.isDigit && d4.isDigit then
      some (1000 * digitVal d1 + 100 * digitVal d2 + 10 * digitVal d3 + digitVal d4,
        match rest with
        | ')' :: r => r
        | r => r)
    else none
  | _ => none

/-- Model of `YEAR_REGEX.sub('', name)`: skip every non-overlapping match,
scanning left to right. -/
def yearSubAux : Nat → List Char → List Char
  | 0, cs => cs
  | _ + 1, [] => []
  | fuel + 1, c :: rest =>
    match yearMatchAt (c :: rest) with
    | some yr => yearSubAux fuel yr.2
    | none => c :: yearSubAux fuel rest

/-- Model of `YEAR_REGEX.search(name)` returning the first year group. -/
def yearSearch (s : String) : Option Nat :=
  firstSome (fun t => (yearMatchAt t).map (fun yr => yr.1)) s.toList.tails

/-- Scan to the matching close character of a lazy `.*?` bracket group; `.`
does not cross a newline. -/
def scanClose (closeC : Char) : List Char → Option (List Char)
  | [] => none
  | c :: rest =>
    if c = closeC then some rest
    else if c = '\n' then none
    else scanClose closeC rest

/-- Match of one release-tag alternative at the head, in the written order of
`\[.*?\]|\(.*?\)|1080p|720p|bluray|webrip|h264|x265|aac`; returns the rest
after the match. -/
def tagMatchAt (cs : List Char) : Option (List Char) :=
  match cs with
  | [] => none
  | c :: rest =>
    if c = '[' then scanClose ']' rest
    else if c = '(' then scanClose ')' rest
    else
      firstSome (fun pre => matchPrefixCI pre (c :: rest))
        [['1','0','8','0','p'], ['7','2','0','p'], ['b','l','u','r','a','y'],
          ['w','e','b','r','i','p'], ['h','2','6','4'], ['x','2','6','5'],
          ['a','a','c']]

/-- Model of the release-tag `re.sub(..., '', name)` pass. -/
def tagSubAux : Nat → List Char → List Char
  | 0, cs => cs
  | _ + 1, [] => []
  | fuel + 1, c :: rest =>
    match tagMatchAt (c :: rest) with
    | some r => tagSubAux fuel r
    | none => c :: tagSubAux fuel rest

/-- Split on whitespace runs with no empty words (Python `str.split()`). -/
def splitWSAux : List Char → List Char → List (List Char)
  | [], acc => if acc.isEmpty then [] else [acc.reverse]
  | c :: rest, acc =>
    if c.isWhitespace then
      if acc.isEmpty then splitWSAux rest [] else acc.reverse :: splitWSAux rest []
    else splitWSAux rest (c :: acc)

/-- Python `str.capitalize()`: first character uppercased, the rest
lowercased. -/
def capitalizeWord : List Char → List Char
  | [] => []
  | c :: rest => c.toUpper :: rest.map Char.toLower

/-- Model of `MediaScanner._clean_name`: the year pass, the tag pass, the
separator replacement with strip, and the capitalize-and-join. -/
def clean_name (name : String) : String :=
  let s1 := yearSubAux name.toList.length name.toList
  let s2 := tagSubAux s1.length s1
  let s3 := stripStr (String.mk (s2.map (fun c => if c = '.' || c = '_' then ' ' else c)))
  let words := splitWSAux s3.toList []
  stripStr (String.mk (List.intercalate [' '] (words.map capitalizeWord)))

/-- C7 fails on the code: for the spec's example input the year pass eats the
digits of `1080p` (the `\d{4}` of `YEAR_REGEX` matches `1080` before the tag
pass could see `1080p`), leaving a stray `p`, and `x264` is absent from the
tag list (only `h264` and `x265` appear), so `_clean_name` yields
`"Movie Title P X264 Mkv"`, not `"Movie Title"`; the year extraction alone
behaves as specified. -/
theorem clean_name_residual_tokens :
    clean_name "Movie.Title.2019.1080p.BluRay.x264.mkv" = "Movie Title P X264 Mkv" ∧
    yearSearch "Movie.Title.2019.1080p.BluRay.x264.mkv" = some 2019 ∧
    ("Movie Title P X264 Mkv" : String) ≠ "Movie Title" := by
  refine ⟨by decide, by decide, by decide⟩

end PondTV
